import Mathlib

/-!
Verification development for the football prediction bot
(`football-prediction-bot.py`).

The Python program is embedded shallowly: Python floats are modelled as
exact rationals (`ℚ`), Python dicts of markets as association lists,
fallible operations as `Option`, the random sampler and the HTTP layer as
explicit functional parameters.  All definitions are executable so that
concrete runs of the pipeline can be evaluated inside proofs.
-/

attribute [local semireducible] Rat.add Rat.mul Rat.sub Rat.inv Rat.ofScientific


open List

namespace BotAI

/-! ## String helpers (kernel-friendly counterparts of the Python string ops) -/

/-- Lower-casing, `str.lower()` in the source. -/
def strLower (s : String) : String := String.mk (s.data.map Char.toLower)

/-- Substring occurrence over character lists; `needle in hay` in the source. -/
def charsOccur (needle : List Char) : List Char → Bool
  | [] => needle.isEmpty
  | c :: t => needle.isPrefixOf (c :: t) || charsOccur needle t

/-- `needle in hay` on strings, as used by the market and outcome name checks. -/
def occursIn (needle hay : String) : Bool := charsOccur needle.data hay.data

/-- `str.replace(" ", "")` in the source: drop every space character. -/
def removeSpaces (s : String) : String := String.mk (s.data.filter (fun c => c ≠ ' '))

/-- `str.strip()` in the source: trim whitespace at both ends. -/
def strTrim (s : String) : String :=
  String.mk (((s.data.dropWhile Char.isWhitespace).reverse.dropWhile Char.isWhitespace).reverse)

/-! ## Data model -/

/-- A named outcome of a betting market with its (possibly missing) decimal odds.
Python's `outcome.get("odds")` yields `None` or a float; `odds = 0.0` is falsy
in the source's `if ... and odds:` checks, which is modelled by `truthyOdds`. -/
structure Outcome where
  name : String
  odds : Option ℚ
deriving Repr, DecidableEq

/-- A betting market: a display name plus a list of outcomes. -/
structure Market where
  name : String
  outcomes : List Outcome
deriving Repr, DecidableEq

/-- A per-match odds snapshot: the Python dict from market-id strings to markets. -/
abbrev Markets := List (String × Market)

/-- Python truthiness of an optional odds value (`None` and `0` are falsy). -/
def truthyOdds : Option ℚ → Bool
  | none => false
  | some v => decide (v ≠ 0)

/-- A candidate prediction as returned by one of the `find_*` rule functions:
its label, odds, raw (odds-based) confidence and stability score. -/
structure Cand where
  type : String
  odds : ℚ
  rawConfidence : ℚ
  stability : ℚ
deriving Repr, DecidableEq

/-- A candidate after `calculate_prediction_confidence` attached the final
confidence. -/
structure Pred where
  type : String
  odds : ℚ
  confidence : ℚ
deriving Repr, DecidableEq

/-- A match as delivered by `get_todays_matches`. -/
structure MatchInfo where
  id : ℕ
  home_team : String
  away_team : String
  league : String
  start_timestamp : ℕ
deriving Repr, DecidableEq

/-- The 1X2 base odds extracted by `get_teams_basic_odds`. -/
structure BasicOdds where
  home : Option ℚ
  draw : Option ℚ
  away : Option ℚ
deriving Repr, DecidableEq

/-! ## Bot constants (`FootballPredictionBot.__init__`) -/

def min_odds : ℚ := 1.10
def max_odds : ℚ := 10.0

def low_scoring_leagues : List String :=
  ["ghana", "nigeria", "kenya", "tanzania", "ethiopia", "south africa",
   "morocco", "algeria", "tunisia", "cameroon", "ivory coast", "senegal", "egypt",
   "belarus", "estonia", "latvia", "lithuania", "uzbekistan", "kazakhstan",
   "peru", "bolivia", "venezuela", "ecuador", "women"]

def high_scoring_leagues : List String :=
  ["germany", "bundesliga", "netherlands", "england premier league",
   "austria", "belgium", "switzerland", "sweden", "norway"]

def invalid_team_names : List String :=
  ["home", "away", "Home", "Away", "HOME", "AWAY", "1", "2", "X"]

def min_team_name_length : ℕ := 3

/-- `is_valid_team_name`. -/
def is_valid_team_name (s : String) : Bool :=
  if s = "" then false
  else if invalid_team_names.contains (strTrim s) then false
  else if (strTrim s).data.length < min_team_name_length then false
  else true

/-- `is_low_scoring_league`. -/
def is_low_scoring_league (league : String) : Bool :=
  if league = "" then false
  else low_scoring_leagues.any (fun s => occursIn s (strLower league))

/-- `is_high_scoring_league`. -/
def is_high_scoring_league (league : String) : Bool :=
  if league = "" then false
  else high_scoring_leagues.any (fun s => occursIn s (strLower league))

/-- `get_league_scoring_profile`. -/
def get_league_scoring_profile (league : String) : String :=
  if is_low_scoring_league league then "low"
  else if is_high_scoring_league league then "high"
  else "medium"

/-! ## Stable sorting (Python `list.sort` is stable) -/

/-- Stable ascending insertion w.r.t. a rational key. -/
def insertAscBy (key : α → ℚ) (x : α) : List α → List α
  | [] => [x]
  | y :: ys => if key x < key y then x :: y :: ys else y :: insertAscBy key x ys

/-- Stable ascending sort by a rational key; models `list.sort(key=...)`. -/
def sortAscBy (key : α → ℚ) (l : List α) : List α :=
  l.foldl (fun acc x => insertAscBy key x acc) []

/-- Stable descending insertion w.r.t. a rational key. -/
def insertDescBy (key : α → ℚ) (x : α) : List α → List α
  | [] => [x]
  | y :: ys => if key y < key x then x :: y :: ys else y :: insertDescBy key x ys

/-- Stable descending sort by a rational key; models
`list.sort(key=..., reverse=True)`. -/
def sortDescBy (key : α → ℚ) (l : List α) : List α :=
  l.foldl (fun acc x => insertDescBy key x acc) []

/-! ## `get_teams_basic_odds` -/

/-- One step of the 1X2 outcome scan (the `if/elif` chain in the loop body). -/
def updateBasicOdds (b : BasicOdds) (o : Outcome) : BasicOdds :=
  let n := strLower o.name
  if occursIn "home" n && truthyOdds o.odds then { b with home := o.odds }
  else if occursIn "draw" n && truthyOdds o.odds then { b with draw := o.odds }
  else if occursIn "away" n && truthyOdds o.odds then { b with away := o.odds }
  else b

/-- `get_teams_basic_odds`: scan market id "1" (named "1x2") for home/draw/away odds. -/
def get_teams_basic_odds (mkts : Markets) : BasicOdds :=
  match List.lookup "1" mkts with
  | some m =>
    if strLower m.name = "1x2" then m.outcomes.foldl updateBasicOdds ⟨none, none, none⟩
    else ⟨none, none, none⟩
  | none => ⟨none, none, none⟩

/-! ## The `find_*` rule functions -/

/-- Collect the outcomes of a market whose (lowered) name satisfies `cond` and
whose odds are truthy and inside `[min_odds, max_odds]` — the `found_odds`
accumulation shared by the rule functions. -/
def collectFoundOdds (cond : String → Bool) (outs : List Outcome) : List (ℚ × String) :=
  outs.filterMap (fun o =>
    let n := strLower o.name
    match o.odds with
    | some v =>
      if cond n && decide (v ≠ 0) && decide (min_odds ≤ v) && decide (v ≤ max_odds)
      then some (v, n) else none
    | none => none)

/-- The `found_odds` gathered from one (optional) market whose lowered name
must satisfy `marketCond`. -/
def marketFound (mk : Option Market) (marketCond : String → Bool)
    (outCond : String → Bool) : List (ℚ × String) :=
  match mk with
  | none => []
  | some m => if marketCond (strLower m.name) then collectFoundOdds outCond m.outcomes else []

/-- Shared tail of the totals / BTTS / double-chance rules: sort the found odds
by proximity to the expected average, take the best one and compute raw
confidence (clamped to `[lo, hi]`) and stability. -/
def bestFoundCand (typ : String) (avg lo hi : ℚ) (found : List (ℚ × String)) : Option Cand :=
  match (sortAscBy (fun x => |x.1 - avg|) found).head? with
  | none => none
  | some best =>
    let b := best.1
    some { type := typ, odds := b,
           rawConfidence := max lo (min hi (1 - (b - min_odds) / (max_odds - min_odds))),
           stability := 1 - min 1 (|b - avg| / avg) }

/-- `find_under_35_goals`: markets "17" (Total) and "99" (Asian Total). -/
def find_under_35_goals (mkts : Markets) : Option Cand :=
  bestFoundCand "-3.5 buts" 1.85 0.5 0.95
    (marketFound (List.lookup "17" mkts) (fun n => occursIn "total" n)
        (fun n => occursIn "under" n && occursIn "3.5" n)
      ++ marketFound (List.lookup "99" mkts) (fun n => occursIn "asian total" n)
        (fun n => occursIn "under" n && occursIn "3.5" n))

/-- `find_over_15_goals`: market "17" (Total). -/
def find_over_15_goals (mkts : Markets) : Option Cand :=
  bestFoundCand "+1.5 buts" 1.07 0.6 0.92
    (marketFound (List.lookup "17" mkts) (fun n => occursIn "total" n)
      (fun n => occursIn "over" n && occursIn "1.5" n))

/-- `find_over_25_goals`: market "17" (Total). -/
def find_over_25_goals (mkts : Markets) : Option Cand :=
  bestFoundCand "+2.5 buts" 1.32 0.55 0.90
    (marketFound (List.lookup "17" mkts) (fun n => occursIn "total" n)
      (fun n => occursIn "over" n && occursIn "2.5" n))

/-- `find_both_teams_to_score`: market "19" (Both Teams To Score). -/
def find_both_teams_to_score (mkts : Markets) : Option Cand :=
  bestFoundCand "Les 2 marquent" 2.71 0.60 0.90
    (marketFound (List.lookup "19" mkts) (fun n => occursIn "both teams to score" n)
      (fun n => occursIn "yes" n))

/-- `find_win_home`: the 1X2 home odds with the attractiveness window `[1.30, 5.0]`. -/
def find_win_home (basic : BasicOdds) : Option Cand :=
  match basic.home with
  | none => none
  | some v =>
    if v = 0 ∨ v < min_odds ∨ max_odds < v then none
    else if v < 1.30 ∨ 5.0 < v then none
    else some { type := "Victoire domicile", odds := v,
                rawConfidence := max 0.60 (min 0.85 (1 - (v - min_odds) / (5.0 - min_odds))),
                stability := 1 - min 1 (|v - 1.90| / 1.90) }

/-- `find_win_away`: the 1X2 away odds with the attractiveness window `[1.30, 5.0]`. -/
def find_win_away (basic : BasicOdds) : Option Cand :=
  match basic.away with
  | none => none
  | some v =>
    if v = 0 ∨ v < min_odds ∨ max_odds < v then none
    else if v < 1.30 ∨ 5.0 < v then none
    else some { type := "Victoire extérieur", odds := v,
                rawConfidence := max 0.55 (min 0.80 (1 - (v - min_odds) / (5.0 - min_odds))),
                stability := 1 - min 1 (|v - 2.50| / 2.50) }

/-- `find_double_chance_1X`: guarded by the 1X2 odds, then market "8" (Double Chance). -/
def find_double_chance_1X (mkts : Markets) (basic : BasicOdds) : Option Cand :=
  match basic.home, basic.draw with
  | some h, some d =>
    if h = 0 ∨ d = 0 then none
    else if ¬ (2.0 ≤ h ∧ h ≤ 5.0 ∧ d ≤ h * 1.5) then none
    else
      bestFoundCand "1X" 1.40 0.6 0.92
        (marketFound (List.lookup "8" mkts) (fun n => occursIn "double chance" n)
          (fun n => occursIn "home or x" n || occursIn "1x" (removeSpaces n)))
  | _, _ => none

/-- `find_double_chance_X2`: guarded by the 1X2 odds, then market "8" (Double Chance). -/
def find_double_chance_X2 (mkts : Markets) (basic : BasicOdds) : Option Cand :=
  match basic.away, basic.draw with
  | some a, some d =>
    if a = 0 ∨ d = 0 then none
    else if ¬ (2.0 ≤ a ∧ a ≤ 5.0 ∧ d ≤ a * 1.5) then none
    else
      bestFoundCand "X2" 1.60 0.55 0.88
        (marketFound (List.lookup "8" mkts) (fun n => occursIn "double chance" n)
          (fun n => occursIn "away or x" n || occursIn "x2" (removeSpaces n)))
  | _, _ => none

/-! ## Confidence and per-match prediction generation -/

/-- `calculate_prediction_confidence`: weighted mix of raw confidence, league
factor and stability, capped at 0.98. -/
def calculate_prediction_confidence (league : String) (c : Cand) : Pred :=
  let profile := get_league_scoring_profile league
  let league_factor : ℚ :=
    if profile = "low" then
      if c.type = "-3.5 buts" then 1.15
      else if c.type = "+1.5 buts" ∨ c.type = "+2.5 buts" ∨ c.type = "Les 2 marquent" then 0.85
      else 1.0
    else if profile = "high" then
      if c.type = "-3.5 buts" then 0.85
      else if c.type = "+1.5 buts" ∨ c.type = "+2.5 buts" ∨ c.type = "Les 2 marquent" then 1.15
      else 1.0
    else 1.0
  let weighted := 0.4 * c.rawConfidence + 0.3 * league_factor + 0.3 * c.stability
  { type := c.type, odds := c.odds, confidence := min 0.98 weighted }

/-- The ordered list of rule-function results for one odds snapshot
(the fixed rule order of `generate_match_predictions`). -/
def ruleResults (mkts : Markets) : List (Option Cand) :=
  let basic := get_teams_basic_odds mkts
  [find_under_35_goals mkts,
   find_over_15_goals mkts,
   find_over_25_goals mkts,
   find_both_teams_to_score mkts,
   find_win_home basic,
   find_win_away basic,
   find_double_chance_1X mkts basic,
   find_double_chance_X2 mkts basic]

/-- The non-null rule candidates, in rule order. -/
def ruleCandidates (mkts : Markets) : List Cand := (ruleResults mkts).filterMap id

/-- `generate_match_predictions`: attach confidences to all rule candidates and
sort them by confidence, descending (Python's sort is stable). -/
def generate_match_predictions (league : String) (mkts : Markets) : List Pred :=
  sortDescBy (fun p => p.confidence)
    ((ruleCandidates mkts).map (calculate_prediction_confidence league))

/-- The odds-range filter applied in `generate_predictions` before choosing. -/
def predInRange (p : Pred) : Bool :=
  decide (min_odds ≤ p.odds) && decide (p.odds ≤ max_odds)

/-- The valid (range-filtered) candidate predictions for one odds snapshot. -/
def validCands (league : String) (mkts : Markets) : List Pred :=
  (generate_match_predictions league mkts).filter predInRange

/-! ## Coupon assembly (`generate_predictions`) -/

/-- The de-duplicating selection of `generate_predictions` for one match:
first candidate (in confidence order) whose label is unused — appending the
label to the used list; otherwise, in a low-scoring league, the first
"-3.5 buts" candidate; otherwise the head.  The used list is extended only by
the first loop, exactly as in the source. -/
def choosePrediction (used : List String) (league : String) (cands : List Pred) :
    Option Pred × List String :=
  match cands.find? (fun p => !(used.contains p.type)) with
  | some p => (some p, used ++ [p.type])
  | none =>
    match (if is_low_scoring_league league then
             cands.find? (fun p => p.type == "-3.5 buts")
           else none) with
    | some p => (some p, used)
    | none => (cands.head?, used)

/-- Python-dict insertion into an association list: overwrite in place if the
key exists, else append. -/
def insertPred (k : ℕ) (v : Pred) (l : List (ℕ × Pred)) : List (ℕ × Pred) :=
  if l.any (fun kv => kv.1 == k) then
    l.map (fun kv => if kv.1 == k then (k, v) else kv)
  else l ++ [(k, v)]

/-- The mutable state threaded through the per-match loop of
`generate_predictions`: the used prediction labels and the predictions dict. -/
structure GenState where
  used : List String
  predictions : List (ℕ × Pred)
deriving Repr, DecidableEq

/-- The body of the `for match in self.selected_matches` loop: skip the match
on invalid team names, failed odds fetch, empty snapshot, no candidates or no
valid candidates; otherwise choose a prediction and store it under the match id. -/
def processMatch (oracle : ℕ → Option Markets) (st : GenState) (m : MatchInfo) : GenState :=
  if !(is_valid_team_name m.home_team && is_valid_team_name m.away_team) then st
  else
    match oracle m.id with
    | none => st
    | some mkts =>
      if mkts.isEmpty then st
      else if (generate_match_predictions m.league mkts).isEmpty then st
      else if (validCands m.league mkts).isEmpty then st
      else
        match choosePrediction st.used m.league (validCands m.league mkts) with
        | (some p, used') => { used := used', predictions := insertPred m.id p st.predictions }
        | (none, _) => st

/-- The whole per-match loop of `generate_predictions`. -/
def genRun (oracle : ℕ → Option Markets) (st : GenState) (ms : List MatchInfo) : GenState :=
  ms.foldl (processMatch oracle) st

/-- Rounding of a rational to the nearest integer, `round` in Python.  (Python
rounds halves to even; on every value this program feeds to `round` the two
conventions agree, so rounding half up is used.) -/
def pyRound (q : ℚ) : ℤ := (q + 1/2).floor

/-- `round(x, 2)` in the source. -/
def round2 (q : ℚ) : ℚ := (pyRound (q * 100) : ℚ) / 100

/-- `generate_predictions`: run the per-match loop, then (if any prediction was
stored) multiply all stored odds starting from 1.0 and round to two decimals.
Returns the final generation state and the coupon total odds. -/
def generate_predictions (oracle : ℕ → Option Markets) (selected : List MatchInfo)
    (st0 : GenState) (total0 : ℚ) : GenState × ℚ :=
  let st := genRun oracle st0 selected
  if st.predictions.isEmpty then (st, total0)
  else (st, round2 ((st.predictions.map (fun kv => kv.2.odds)).foldl (· * ·) 1.0))

/-! ## Match selection (`select_matches`) -/

/-- The quota adjustment cascade of `select_matches`, operating on the three
category sizes and the initial integer quotas. -/
def adjust_quotas (lenL lenM lenH : ℕ) (lowQ medQ highQ : ℤ) : ℤ × ℤ × ℤ :=
  let lowQ1 : ℤ := if (lenL : ℤ) < lowQ then (lenL : ℤ) else lowQ
  let medQ1 : ℤ := if (lenL : ℤ) < lowQ then medQ + (lowQ - lenL) / 2 else medQ
  let highQ1 : ℤ :=
    if (lenL : ℤ) < lowQ then highQ + ((lowQ - lenL) - (lowQ - lenL) / 2) else highQ
  let medQ2 : ℤ := if (lenM : ℤ) < medQ1 then (lenM : ℤ) else medQ1
  let highQ2 : ℤ := if (lenM : ℤ) < medQ1 then highQ1 + (medQ1 - lenM) else highQ1
  let medQ3 : ℤ :=
    if (lenH : ℤ) < highQ2 then
      (if (lenM : ℤ) < medQ2 + (highQ2 - lenH) then (lenM : ℤ) else medQ2 + (highQ2 - lenH))
    else medQ2
  let highQ3 : ℤ := if (lenH : ℤ) < highQ2 then (lenH : ℤ) else highQ2
  (lowQ1, medQ3, highQ3)

/-- `random.sample(l, k)` guarded by the source's `if l else []`: an empty
population yields `[]`; a negative or oversized sample size raises (modelled as
`none`); otherwise the abstract sampler draws `k` elements. -/
def sampleIfNonempty (sampler : List MatchInfo → ℕ → List MatchInfo)
    (l : List MatchInfo) (k : ℤ) : Option (List MatchInfo) :=
  if l.isEmpty then some []
  else if 0 ≤ k ∧ k ≤ (l.length : ℤ) then some (sampler l k.toNat) else none

/-- The low-scoring category of the input matches (the `if` branch of the
categorisation loop). -/
def lowCat (allM : List MatchInfo) : List MatchInfo :=
  allM.filter (fun m => is_low_scoring_league m.league)

/-- The matches that are not low-scoring. -/
def restCat (allM : List MatchInfo) : List MatchInfo :=
  allM.filter (fun m => !(is_low_scoring_league m.league))

/-- The high-scoring category (the `elif` branch). -/
def highCat (allM : List MatchInfo) : List MatchInfo :=
  (restCat allM).filter (fun m => is_high_scoring_league m.league)

/-- The medium-scoring category (the `else` branch). -/
def medCat (allM : List MatchInfo) : List MatchInfo :=
  (restCat allM).filter (fun m => !(is_high_scoring_league m.league))

/-- `max_matches = min(5, len(all_matches))`. -/
def maxMatchesOf (allM : List MatchInfo) : ℕ := min 5 allM.length

/-- The initial low quota `max(1, round(max_matches * 0.6))`. -/
def lowQuota0 (allM : List MatchInfo) : ℤ := max 1 (pyRound ((maxMatchesOf allM : ℚ) * 0.6))

/-- The initial medium quota `max(1, round(max_matches * 0.3))`. -/
def medQuota0 (allM : List MatchInfo) : ℤ := max 1 (pyRound ((maxMatchesOf allM : ℚ) * 0.3))

/-- The adjusted quota triple of `select_matches`. -/
def quotasOf (allM : List MatchInfo) : ℤ × ℤ × ℤ :=
  adjust_quotas (lowCat allM).length (medCat allM).length (highCat allM).length
    (lowQuota0 allM) (medQuota0 allM)
    ((maxMatchesOf allM : ℤ) - lowQuota0 allM - medQuota0 allM)

/-- `select_matches`: split the input into the low/medium/high scoring-profile
categories, compute quotas (60% / 30% / remainder of `min(5, n)`, each at least
1 before adjustment), adjust them to the category sizes, and sample each
category without replacement.  An empty input stores nothing (the selection
stays at its reset value `[]`). -/
def select_matches (sampler : List MatchInfo → ℕ → List MatchInfo)
    (allM : List MatchInfo) : Option (List MatchInfo) :=
  if allM.isEmpty then some []
  else
    match sampleIfNonempty sampler (lowCat allM)
          (min (quotasOf allM).1 ((lowCat allM).length : ℤ)),
        sampleIfNonempty sampler (medCat allM)
          (min (quotasOf allM).2.1 ((medCat allM).length : ℤ)),
        sampleIfNonempty sampler (highCat allM)
          (min (quotasOf allM).2.2 ((highCat allM).length : ℤ)) with
    | some a, some b, some c => some (a ++ b ++ c)
    | _, _, _ => none

/-! ## The prediction job (`run_prediction_job`) -/

/-- The bot's mutable prediction state. -/
structure BotState where
  selected_matches : List MatchInfo
  predictions : List (ℕ × Pred)
  coupon_total_odds : ℚ
deriving Repr, DecidableEq

/-- The environment of one run: the matches delivered by `get_todays_matches`,
the random sampler and the per-match odds oracle (`get_match_odds`). -/
structure Env where
  todaysMatches : List MatchInfo
  sampler : List MatchInfo → ℕ → List MatchInfo
  oracle : ℕ → Option Markets

/-- `run_prediction_job`: reset the mutable state, fetch today's matches, select
a subset and generate the predictions and coupon odds.  `none` models an
uncaught exception inside `select_matches`. -/
def run_prediction_job (env : Env) (st : BotState) : Option BotState :=
  let st1 : BotState := { st with selected_matches := [], predictions := [],
                                  coupon_total_odds := 1.0 }
  if env.todaysMatches.isEmpty then some st1
  else
    match select_matches env.sampler env.todaysMatches with
    | none => none
    | some sel =>
      let st2 : BotState := { st1 with selected_matches := sel }
      if sel.isEmpty then some st2
      else
        let g := generate_predictions env.oracle sel ⟨[], []⟩ st2.coupon_total_odds
        some { st2 with predictions := g.1.predictions, coupon_total_odds := g.2 }

/-! ## The HTTP retry loop (`make_api_request`) -/

/-- The observable result of one HTTP attempt: a raised exception, or a
response with a status code and (when `json.loads` succeeds) a parsed body. -/
inductive ApiOutcome where
  | exc : ApiOutcome
  | resp (status : ℕ) (parsed : Option ℕ) : ApiOutcome
deriving Repr, DecidableEq

/-- What one attempt yields to the caller: the parsed body when the status is
200 and the body parses, failure otherwise. -/
def apiAttemptResult : ApiOutcome → Option ℕ
  | .resp 200 (some v) => some v
  | _ => none

/-- The retry loop of `make_api_request`, by remaining fuel.  Returns the
result, the number of attempts made, and the list of sleep durations. -/
def apiLoop (env : ℕ → ApiOutcome) (attempt : ℕ) : ℕ → Option ℕ × ℕ × List ℕ
  | 0 => (none, 0, [])
  | fuel + 1 =>
    match apiAttemptResult (env attempt) with
    | some v => (some v, 1, [])
    | none =>
      let rest := apiLoop env (attempt + 1) fuel
      if fuel = 0 then (rest.1, rest.2.1 + 1, rest.2.2)
      else (rest.1, rest.2.1 + 1, 2 :: rest.2.2)

/-- `make_api_request`: `max_retries = 3`, `retry_delay = 2` seconds. -/
def make_api_request (env : ℕ → ApiOutcome) : Option ℕ × ℕ × List ℕ :=
  apiLoop env 0 3

/-! ## Spec-side definition for the refinement claim C1 -/

/-- Follows the specification's words ("iterate a fixed, ordered list of rule
functions; return the first non-null candidate"), for comparison with the
source's `generate_match_predictions`/`generate_predictions` pair. -/
def firstRuleCandidate (league : String) (mkts : Markets) : Option Pred :=
  ((ruleResults mkts).findSome? id).map (calculate_prediction_confidence league)

/-- The valid candidates available for a match, given the odds oracle. -/
def matchValidCands (oracle : ℕ → Option Markets) (m : MatchInfo) : List Pred :=
  match oracle m.id with
  | none => []
  | some mkts => validCands m.league mkts

/-- A deterministic instance of `random.sample`: take the first `k` elements.
It draws `k` distinct positions, hence satisfies the sampler contract. -/
def takeSampler : List MatchInfo → ℕ → List MatchInfo := fun l k => l.take k

/-! ## Concrete example inputs used by the closed theorems -/

/-- A snapshot with a Total market holding an Under 3.5 and an Over 1.5 line. -/
def exMarkets : Markets :=
  [("17", { name := "Total",
            outcomes := [{ name := "Under 3.5", odds := some 3 },
                         { name := "Over 1.5", odds := some 1.2 }] })]

/-- A handicap market entry (market id "2") with the given odds. -/
def exHandicapEntry (v : ℚ) : String × Market :=
  ("2", { name := "Handicap", outcomes := [{ name := "Handicap 1 (-1.5)", odds := some v }] })

/-- `exMarkets` extended with a handicap market at odds 2.5. -/
def exMarketsH : Markets := exMarkets ++ [exHandicapEntry 2.5]

/-- `exMarkets` extended with a handicap market at odds 4.0. -/
def exMarketsH2 : Markets := exMarkets ++ [exHandicapEntry 4.0]

/-- A valid example match in a medium-scoring league. -/
def exMatch : MatchInfo :=
  { id := 7, home_team := "Alpha", away_team := "Beta", league := "Testland",
    start_timestamp := 100 }

/-- An oracle that always returns `exMarkets`. -/
def exOracle : ℕ → Option Markets := fun _ => some exMarkets

/-- An oracle for which every odds fetch fails. -/
def noneOracle : ℕ → Option Markets := fun _ => none

/-- An API environment whose first attempt raises and whose later attempts
return status 200 with a parseable body. -/
def exApiEnv : ℕ → ApiOutcome := fun a => if a = 0 then .exc else .resp 200 (some 42)

/-! ## Lemmas about the stable sorts -/

theorem mem_insertAscBy (key : α → ℚ) (x y : α) (l : List α) :
    y ∈ insertAscBy key x l ↔ y = x ∨ y ∈ l := by
  induction l with
  | nil => simp [insertAscBy]
  | cons z zs ih =>
    simp only [insertAscBy]
    split
    · simp [or_comm, or_assoc, or_left_comm]
    · simp [ih]
      tauto

theorem mem_sortAscBy (key : α → ℚ) (l : List α) (y : α) :
    y ∈ sortAscBy key l ↔ y ∈ l := by
  have main : ∀ acc, y ∈ l.foldl (fun acc x => insertAscBy key x acc) acc ↔
      y ∈ acc ∨ y ∈ l := by
    induction l with
    | nil => simp
    | cons x xs ih =>
      intro acc
      simp only [List.foldl_cons, ih, mem_insertAscBy, List.mem_cons]
      tauto
  simpa [sortAscBy] using main []

theorem mem_insertDescBy (key : α → ℚ) (x y : α) (l : List α) :
    y ∈ insertDescBy key x l ↔ y = x ∨ y ∈ l := by
  induction l with
  | nil => simp [insertDescBy]
  | cons z zs ih =>
    simp only [insertDescBy]
    split
    · simp [or_comm, or_assoc, or_left_comm]
    · simp [ih]
      tauto

theorem pairwise_insertDescBy (key : α → ℚ) (x : α) (l : List α)
    (h : l.Pairwise (fun a b => key b ≤ key a)) :
    (insertDescBy key x l).Pairwise (fun a b => key b ≤ key a) := by
  induction l with
  | nil => simp [insertDescBy]
  | cons y ys ih =>
    simp only [insertDescBy]
    rcases List.pairwise_cons.mp h with ⟨hy, hys⟩
    by_cases hxy : key y < key x
    · rw [if_pos hxy]
      refine List.pairwise_cons.mpr ⟨?_, h⟩
      intro z hz
      rcases List.mem_cons.mp hz with rfl | hz
      · exact le_of_lt hxy
      · exact le_trans (hy z hz) (le_of_lt hxy)
    · rw [if_neg hxy]
      refine List.pairwise_cons.mpr ⟨?_, ih hys⟩
      intro z hz
      rcases (mem_insertDescBy key x z ys).mp hz with rfl | hz
      · exact le_of_not_lt hxy
      · exact hy z hz

theorem pairwise_sortDescBy (key : α → ℚ) (l : List α) :
    (sortDescBy key l).Pairwise (fun a b => key b ≤ key a) := by
  have main : ∀ acc, acc.Pairwise (fun a b => key b ≤ key a) →
      (l.foldl (fun acc x => insertDescBy key x acc) acc).Pairwise
        (fun a b => key b ≤ key a) := by
    induction l with
    | nil => intro acc hacc; simpa using hacc
    | cons x xs ih =>
      intro acc hacc
      exact ih _ (pairwise_insertDescBy key x acc hacc)
  exact main [] (by simp)

theorem mem_of_head?_eq_some {l : List α} {a : α} (h : l.head? = some a) : a ∈ l := by
  cases l with
  | nil => simp at h
  | cons x t =>
    simp only [List.head?_cons, Option.some.injEq] at h
    simp [h]

/-! ## Lemmas about `choosePrediction` and `insertPred` -/

theorem choosePrediction_fst_mem {used : List String} {league : String}
    {cands : List Pred} {p : Pred}
    (h : (choosePrediction used league cands).1 = some p) : p ∈ cands := by
  unfold choosePrediction at h
  rcases hf : cands.find? (fun p => !(used.contains p.type)) with _ | q
  · rw [hf] at h
    by_cases hl : is_low_scoring_league league = true
    · rcases hg : cands.find? (fun p => p.type == "-3.5 buts") with _ | q
      · simp only [hl, if_true, hg] at h
        exact mem_of_head?_eq_some h
      · simp only [hl, if_true, hg, Option.some.injEq] at h
        exact h ▸ List.mem_of_find?_eq_some hg
    · simp only [if_neg hl] at h
      exact mem_of_head?_eq_some h
  · rw [hf] at h
    simp only [Option.some.injEq] at h
    exact h ▸ List.mem_of_find?_eq_some hf

theorem mem_insertPred {k : ℕ} {v : Pred} {l : List (ℕ × Pred)} {kv : ℕ × Pred}
    (h : kv ∈ insertPred k v l) : kv ∈ l ∨ kv = (k, v) := by
  unfold insertPred at h
  split at h
  · rcases List.mem_map.mp h with ⟨kv', hkv', he⟩
    by_cases hk : (kv'.1 == k) = true
    · rw [if_pos hk] at he
      right; exact he.symm
    · rw [if_neg hk] at he
      left; exact he ▸ hkv'
  · rcases List.mem_append.mp h with hl | hr
    · left; exact hl
    · right; simpa using hr

theorem insertPred_keys (k : ℕ) (v : Pred) (l : List (ℕ × Pred)) :
    (insertPred k v l).map Prod.fst =
      if l.any (fun kv => kv.1 == k) then l.map Prod.fst else l.map Prod.fst ++ [k] := by
  unfold insertPred
  split
  · rw [List.map_map]
    refine List.map_congr_left ?_
    intro kv hkv
    by_cases hk : kv.1 = k
    · simp [hk]
    · simp [hk]
  · simp

theorem insertPred_keys_nodup {k : ℕ} {v : Pred} {l : List (ℕ × Pred)}
    (h : (l.map Prod.fst).Nodup) : ((insertPred k v l).map Prod.fst).Nodup := by
  rw [insertPred_keys]
  split
  · exact h
  · refine h.append (List.nodup_singleton k) ?_
    intro a ha hak
    have hk : a = k := List.mem_singleton.mp hak
    rcases List.mem_map.mp ha with ⟨kv, hkv, hfst⟩
    have hany : ¬ (l.any (fun kv => kv.1 == k) = true) := by assumption
    exact hany (List.any_eq_true.mpr ⟨kv, hkv, by simp [hfst, hk]⟩)

theorem insertPred_keys_subset {k : ℕ} {v : Pred} {l : List (ℕ × Pred)} {a : ℕ}
    (h : a ∈ (insertPred k v l).map Prod.fst) : a ∈ l.map Prod.fst ∨ a = k := by
  rw [insertPred_keys] at h
  split at h
  · left; exact h
  · rcases List.mem_append.mp h with hl | hr
    · left; exact hl
    · right; simpa using hr

/-! ## Odds-range lemmas for the rule functions -/

theorem collectFoundOdds_range {cond : String → Bool} {outs : List Outcome}
    {x : ℚ × String} (hx : x ∈ collectFoundOdds cond outs) :
    min_odds ≤ x.1 ∧ x.1 ≤ max_odds := by
  unfold collectFoundOdds at hx
  rcases List.mem_filterMap.mp hx with ⟨o, ho, hsome⟩
  dsimp only at hsome
  rcases o with ⟨nm, odds⟩
  rcases odds with _ | v
  · simp at hsome
  · simp only at hsome
    split at hsome
    · rename_i hcond
      simp only [Bool.and_eq_true, decide_eq_true_eq] at hcond
      cases hsome
      exact ⟨hcond.1.2, hcond.2⟩
    · cases hsome

theorem marketFound_range {mk : Option Market} {mc oc : String → Bool}
    {x : ℚ × String} (hx : x ∈ marketFound mk mc oc) :
    min_odds ≤ x.1 ∧ x.1 ≤ max_odds := by
  unfold marketFound at hx
  rcases mk with _ | m
  · simp at hx
  · have hx' : x ∈ (if mc (strLower m.name) = true
        then collectFoundOdds oc m.outcomes else []) := hx
    split at hx'
    · exact collectFoundOdds_range hx'
    · simp at hx'

theorem bestFoundCand_odds {typ : String} {avg lo hi : ℚ} {found : List (ℚ × String)}
    {c : Cand} (h : bestFoundCand typ avg lo hi found = some c) :
    ∃ x ∈ found, c.odds = x.1 := by
  unfold bestFoundCand at h
  rcases hh : (sortAscBy (fun x => |x.1 - avg|) found).head? with _ | best
  · rw [hh] at h; cases h
  · rw [hh] at h
    simp only [Option.some.injEq] at h
    refine ⟨best, (mem_sortAscBy _ found best).mp (mem_of_head?_eq_some hh), ?_⟩
    rw [← h]

theorem find_under_35_goals_range {mkts : Markets} {c : Cand}
    (h : find_under_35_goals mkts = some c) : min_odds ≤ c.odds ∧ c.odds ≤ max_odds := by
  rcases bestFoundCand_odds h with ⟨x, hx, he⟩
  rcases List.mem_append.mp hx with hx | hx <;>
    exact he ▸ marketFound_range hx

theorem find_over_15_goals_range {mkts : Markets} {c : Cand}
    (h : find_over_15_goals mkts = some c) : min_odds ≤ c.odds ∧ c.odds ≤ max_odds := by
  rcases bestFoundCand_odds h with ⟨x, hx, he⟩
  exact he ▸ marketFound_range hx

theorem find_over_25_goals_range {mkts : Markets} {c : Cand}
    (h : find_over_25_goals mkts = some c) : min_odds ≤ c.odds ∧ c.odds ≤ max_odds := by
  rcases bestFoundCand_odds h with ⟨x, hx, he⟩
  exact he ▸ marketFound_range hx

theorem find_both_teams_to_score_range {mkts : Markets} {c : Cand}
    (h : find_both_teams_to_score mkts = some c) : min_odds ≤ c.odds ∧ c.odds ≤ max_odds := by
  rcases bestFoundCand_odds h with ⟨x, hx, he⟩
  exact he ▸ marketFound_range hx

theorem find_win_home_range {basic : BasicOdds} {c : Cand}
    (h : find_win_home basic = some c) : min_odds ≤ c.odds ∧ c.odds ≤ max_odds := by
  unfold find_win_home at h
  rcases basic with ⟨home, draw, away⟩
  rcases home with _ | v
  · cases h
  · simp only at h
    split at h
    · cases h
    · split at h
      · cases h
      · rename_i h1 h2
        push_neg at h1
        simp only [Option.some.injEq] at h
        rw [← h]
        exact ⟨h1.2.1, h1.2.2⟩

theorem find_win_away_range {basic : BasicOdds} {c : Cand}
    (h : find_win_away basic = some c) : min_odds ≤ c.odds ∧ c.odds ≤ max_odds := by
  unfold find_win_away at h
  rcases basic with ⟨home, draw, away⟩
  rcases away with _ | v
  · cases h
  · simp only at h
    split at h
    · cases h
    · split at h
      · cases h
      · rename_i h1 h2
        push_neg at h1
        simp only [Option.some.injEq] at h
        rw [← h]
        exact ⟨h1.2.1, h1.2.2⟩

theorem find_double_chance_1X_range {mkts : Markets} {basic : BasicOdds} {c : Cand}
    (h : find_double_chance_1X mkts basic = some c) :
    min_odds ≤ c.odds ∧ c.odds ≤ max_odds := by
  unfold find_double_chance_1X at h
  rcases basic with ⟨home, draw, away⟩
  rcases home with _ | hv
  · cases h
  · rcases draw with _ | dv
    · cases h
    · simp only at h
      split at h
      · cases h
      · split at h
        · cases h
        · rcases bestFoundCand_odds h with ⟨x, hx, he⟩
          exact he ▸ marketFound_range hx

theorem find_double_chance_X2_range {mkts : Markets} {basic : BasicOdds} {c : Cand}
    (h : find_double_chance_X2 mkts basic = some c) :
    min_odds ≤ c.odds ∧ c.odds ≤ max_odds := by
  unfold find_double_chance_X2 at h
  rcases basic with ⟨home, draw, away⟩
  rcases away with _ | av
  · cases h
  · rcases draw with _ | dv
    · cases h
    · simp only at h
      split at h
      · cases h
      · split at h
        · cases h
        · rcases bestFoundCand_odds h with ⟨x, hx, he⟩
          exact he ▸ marketFound_range hx

theorem ruleCandidates_range {mkts : Markets} {c : Cand}
    (hc : c ∈ ruleCandidates mkts) : min_odds ≤ c.odds ∧ c.odds ≤ max_odds := by
  unfold ruleCandidates ruleResults at hc
  rcases List.mem_filterMap.mp hc with ⟨o, ho, hid⟩
  simp only [id_eq] at hid
  subst hid
  simp only [List.mem_cons, List.not_mem_nil, or_false] at ho
  rcases ho with h | h | h | h | h | h | h | h
  · exact find_under_35_goals_range h.symm
  · exact find_over_15_goals_range h.symm
  · exact find_over_25_goals_range h.symm
  · exact find_both_teams_to_score_range h.symm
  · exact find_win_home_range h.symm
  · exact find_win_away_range h.symm
  · exact find_double_chance_1X_range h.symm
  · exact find_double_chance_X2_range h.symm

/-! ## Skip and storage lemmas for the coupon loop -/

theorem processMatch_skip {oracle : ℕ → Option Markets} {m : MatchInfo}
    (h : oracle m.id = none ∨ matchValidCands oracle m = []) (st : GenState) :
    processMatch oracle st m = st := by
  unfold processMatch
  split
  · rfl
  · rcases ho : oracle m.id with _ | mkts
    · rfl
    · dsimp only
      have hv : validCands m.league mkts = [] := by
        rcases h with h | h
        · rw [ho] at h; cases h
        · unfold matchValidCands at h
          rw [ho] at h
          exact h
      simp only [hv, List.isEmpty_nil, if_true]
      split
      · rfl
      · split
        · rfl
        · rfl

theorem processMatch_preds_cases (oracle : ℕ → Option Markets) (st : GenState)
    (m : MatchInfo) :
    (processMatch oracle st m).predictions = st.predictions ∨
      ∃ p, predInRange p = true ∧
        (processMatch oracle st m).predictions = insertPred m.id p st.predictions := by
  unfold processMatch
  split
  · left; rfl
  · rcases ho : oracle m.id with _ | mkts
    · left; rfl
    · dsimp only
      split
      · left; rfl
      · split
        · left; rfl
        · split
          · left; rfl
          · rcases hch : choosePrediction st.used m.league (validCands m.league mkts)
              with ⟨op, used2⟩
            rcases op with _ | p
            · left; rfl
            · right
              refine ⟨p, ?_, rfl⟩
              have hp : p ∈ validCands m.league mkts :=
                choosePrediction_fst_mem (by rw [hch])
              exact (List.mem_filter.mp hp).2

theorem genRun_preds_range (oracle : ℕ → Option Markets) (ms : List MatchInfo) :
    ∀ st : GenState,
      (∀ kv ∈ st.predictions, min_odds ≤ kv.2.odds ∧ kv.2.odds ≤ max_odds) →
      ∀ kv ∈ (genRun oracle st ms).predictions,
        min_odds ≤ kv.2.odds ∧ kv.2.odds ≤ max_odds := by
  induction ms with
  | nil => intro st h kv hkv; exact h kv hkv
  | cons m ms ih =>
    intro st h kv hkv
    refine ih (processMatch oracle st m) ?_ kv hkv
    intro kv' hkv'
    rcases processMatch_preds_cases oracle st m with hc | ⟨p, hp, hc⟩
    · rw [hc] at hkv'; exact h kv' hkv'
    · rw [hc] at hkv'
      rcases mem_insertPred hkv' with hmem | rfl
      · exact h kv' hmem
      · simpa [predInRange, Bool.and_eq_true, decide_eq_true_eq] using hp

theorem genRun_keys (oracle : ℕ → Option Markets) (ms : List MatchInfo) :
    ∀ st : GenState, (st.predictions.map Prod.fst).Nodup →
      ((genRun oracle st ms).predictions.map Prod.fst).Nodup ∧
      ∀ a ∈ (genRun oracle st ms).predictions.map Prod.fst,
        a ∈ st.predictions.map Prod.fst ∨ a ∈ ms.map MatchInfo.id := by
  induction ms with
  | nil => intro st h; exact ⟨h, fun a ha => Or.inl ha⟩
  | cons m ms ih =>
    intro st h
    have hstep_nodup : ((processMatch oracle st m).predictions.map Prod.fst).Nodup := by
      rcases processMatch_preds_cases oracle st m with hc | ⟨p, hp, hc⟩
      · rw [hc]; exact h
      · rw [hc]; exact insertPred_keys_nodup h
    have hstep_sub : ∀ a ∈ (processMatch oracle st m).predictions.map Prod.fst,
        a ∈ st.predictions.map Prod.fst ∨ a = m.id := by
      intro a ha
      rcases processMatch_preds_cases oracle st m with hc | ⟨p, hp, hc⟩
      · rw [hc] at ha; exact Or.inl ha
      · rw [hc] at ha; exact insertPred_keys_subset ha
    rcases ih (processMatch oracle st m) hstep_nodup with ⟨h1, h2⟩
    refine ⟨h1, ?_⟩
    intro a ha
    rcases h2 a ha with hin | hin
    · rcases hstep_sub a hin with hin2 | rfl
      · exact Or.inl hin2
      · right; simp
    · right; simp [hin]

/-! ## Lemmas for `select_matches` -/

theorem adjust_quotas_sum_le (lenL lenM lenH : ℕ) (L M H : ℤ) :
    (adjust_quotas lenL lenM lenH L M H).1 + (adjust_quotas lenL lenM lenH L M H).2.1 +
      (adjust_quotas lenL lenM lenH L M H).2.2 ≤ L + M + H := by
  unfold adjust_quotas
  dsimp only
  split_ifs <;> omega

theorem adjust_quotas_low_med_nonneg (lenL lenM lenH : ℕ) (L M H : ℤ)
    (hL : 1 ≤ L) (hM : 1 ≤ M) :
    0 ≤ (adjust_quotas lenL lenM lenH L M H).1 ∧
      0 ≤ (adjust_quotas lenL lenM lenH L M H).2.1 := by
  unfold adjust_quotas
  dsimp only
  split_ifs <;> constructor <;> omega

theorem adjust_quotas_high_neg (lenL lenM lenH : ℕ) (L M H : ℤ)
    (h : (adjust_quotas lenL lenM lenH L M H).2.2 < 0) : H < 0 := by
  revert h
  unfold adjust_quotas
  dsimp only
  split_ifs <;> omega

theorem initial_quotas_facts (n : ℕ) (h1 : 1 ≤ n) (h5 : n ≤ 5) :
    1 ≤ max 1 (pyRound ((n : ℚ) * 0.6)) ∧ 1 ≤ max 1 (pyRound ((n : ℚ) * 0.3)) ∧
      ((n : ℤ) - max 1 (pyRound ((n : ℚ) * 0.6)) - max 1 (pyRound ((n : ℚ) * 0.3)) < 0 →
        n = 1) := by
  interval_cases n <;> refine ⟨by decide, by decide, fun h => ?_⟩ <;> revert h <;> decide

theorem sampleIfNonempty_spec {sampler : List MatchInfo → ℕ → List MatchInfo}
    (hs : ∀ l k, k ≤ l.length →
      List.Subperm (sampler l k) l ∧ (sampler l k).length = k)
    {l : List MatchInfo} {k : ℤ} {r : List MatchInfo}
    (h : sampleIfNonempty sampler l k = some r) :
    List.Subperm r l ∧ (r.length : ℤ) ≤ max k 0 ∧ r.length ≤ l.length := by
  unfold sampleIfNonempty at h
  split at h
  · cases h
    exact ⟨List.nil_subperm, by simp, by simp⟩
  · split at h
    · rename_i hg
      cases h
      have hkn : k.toNat ≤ l.length := by omega
      rcases hs l k.toNat hkn with ⟨hsub, hlen⟩
      refine ⟨hsub, ?_, ?_⟩ <;> rw [hlen] <;> omega
    · cases h

theorem takeSampler_spec : ∀ (l : List MatchInfo) (k : ℕ), k ≤ l.length →
    List.Subperm (takeSampler l k) l ∧ (takeSampler l k).length = k := by
  intro l k hk
  refine ⟨(List.take_sublist k l).subperm, ?_⟩
  simp only [takeSampler, List.length_take]
  omega

/-! ## Claim C1 -/

/-- C1 as stated is false: the code does not return the candidate of the first
rule that yields a non-null result.  On `exMarkets` the first rule (under 3.5
goals, odds 3) yields a candidate, yet the stored prediction is the over 1.5
candidate, because `generate_match_predictions` sorts all candidates by
confidence and `generate_predictions` picks the most confident one. -/
theorem C1_counterexample :
    ((processMatch exOracle ⟨[], []⟩ exMatch).predictions.map (fun kv => kv.2.type))
        = ["+1.5 buts"] ∧
      (firstRuleCandidate exMatch.league exMarkets).map Pred.type = some "-3.5 buts" ∧
      ("+1.5 buts" : String) ≠ "-3.5 buts" := by
  decide

/-- With no label used yet, the choice of `generate_predictions` is the
most confident valid candidate. -/
theorem chooseEmptyUsed_max (league : String) (mkts : Markets)
    (h : validCands league mkts ≠ []) :
    ∃ c, (choosePrediction [] league (validCands league mkts)).1 = some c ∧
      c ∈ validCands league mkts ∧
      ∀ p ∈ validCands league mkts, p.confidence ≤ c.confidence := by
  have hpw : (validCands league mkts).Pairwise
      (fun a b => b.confidence ≤ a.confidence) := by
    unfold validCands generate_match_predictions
    exact (pairwise_sortDescBy _ _).filter _
  rcases hl : validCands league mkts with _ | ⟨c, t⟩
  · exact absurd hl h
  · rw [hl] at hpw
    refine ⟨c, ?_, ?_, ?_⟩
    · have hfind : (c :: t).find? (fun p => !(List.contains [] p.type)) = some c :=
        List.find?_cons_of_pos _ (by simp)
      simp [choosePrediction, hfind]
    · exact List.mem_cons_self c t
    · intro p hp
      rcases List.mem_cons.mp hp with rfl | hpt
      · exact le_refl _
      · exact (List.pairwise_cons.mp hpw).1 p hpt

/-- C1 (amended): for every match whose odds snapshot admits at least one
valid candidate, with valid team names and no label used yet by earlier coupon
legs, the prediction stored for that match is a valid candidate of maximal
confidence among the candidates collected by iterating the fixed, ordered rule
list — not (in general) the first rule's non-null candidate. -/
theorem C1_thm (oracle : ℕ → Option Markets) (st : GenState) (m : MatchInfo)
    (mkts : Markets) (hmk : oracle m.id = some mkts)
    (hteams : (is_valid_team_name m.home_team && is_valid_team_name m.away_team) = true)
    (hused : st.used = []) (hvc : validCands m.league mkts ≠ []) :
    ∃ c, c ∈ validCands m.league mkts ∧
      (∀ p ∈ validCands m.league mkts, p.confidence ≤ c.confidence) ∧
      (processMatch oracle st m).predictions = insertPred m.id c st.predictions := by
  obtain ⟨c, hc1, hc2, hc3⟩ := chooseEmptyUsed_max m.league mkts hvc
  refine ⟨c, hc2, hc3, ?_⟩
  have hmkne : ¬ (mkts.isEmpty = true) := by
    intro hmE
    apply hvc
    rw [List.isEmpty_iff.mp hmE]
    rfl
  have hgenne : ¬ ((generate_match_predictions m.league mkts).isEmpty = true) := by
    intro hgE
    apply hvc
    unfold validCands
    rw [List.isEmpty_iff.mp hgE]
    rfl
  have hvcne : ¬ ((validCands m.league mkts).isEmpty = true) := by
    intro hvE
    exact hvc (List.isEmpty_iff.mp hvE)
  unfold processMatch
  rw [if_neg (by simp [hteams]), hmk]
  dsimp only
  rw [if_neg hmkne, if_neg hgenne, if_neg hvcne, hused]
  rcases hch : choosePrediction [] m.league (validCands m.league mkts) with ⟨op, u2⟩
  rw [hch] at hc1
  dsimp only at hc1
  rw [hc1]

/-- C1 witness: on `exMarkets` the amended statement is non-vacuous. -/
theorem C1_witness :
    ∃ c, c ∈ validCands exMatch.league exMarkets ∧
      (∀ p ∈ validCands exMatch.league exMarkets, p.confidence ≤ c.confidence) ∧
      (processMatch exOracle ⟨[], []⟩ exMatch).predictions =
        insertPred exMatch.id c (⟨[], []⟩ : GenState).predictions :=
  C1_thm exOracle ⟨[], []⟩ exMatch exMarkets rfl (by decide) rfl (by decide)

/-! ## Claim C3 -/

/-- C3: when assembling the coupon, a candidate whose type label is already
used by an earlier leg is skipped in favour of a candidate with an unused
label (whenever one exists), and a duplicate label can be stored for a match
only when every candidate of that match carries an already-used label. -/
theorem C3_thm (used : List String) (league : String) (cands : List Pred) :
    ((∃ c ∈ cands, c.type ∉ used) →
      ∃ c, (choosePrediction used league cands).1 = some c ∧
        c ∈ cands ∧ c.type ∉ used) ∧
    (∀ c, (choosePrediction used league cands).1 = some c → c.type ∈ used →
      ∀ p ∈ cands, p.type ∈ used) := by
  constructor
  · rintro ⟨c, hc, hcu⟩
    rcases hf : cands.find? (fun p => !(used.contains p.type)) with _ | q
    · exfalso
      have hn := List.find?_eq_none.mp hf c hc
      simp only [Bool.not_eq_true', Bool.not_eq_false] at hn
      exact hcu (by simpa using hn)
    · refine ⟨q, ?_, List.mem_of_find?_eq_some hf, ?_⟩
      · unfold choosePrediction
        rw [hf]
      · have := List.find?_some hf
        simpa using this
  · intro c hc hcu p hp
    rcases hf : cands.find? (fun p => !(used.contains p.type)) with _ | q
    · have hn := List.find?_eq_none.mp hf p hp
      simp only [Bool.not_eq_true', Bool.not_eq_false] at hn
      simpa using hn
    · exfalso
      have h1 : (choosePrediction used league cands).1 = some q := by
        unfold choosePrediction
        rw [hf]
      rw [hc] at h1
      have hq : c = q := by injection h1
      have := List.find?_some hf
      rw [← hq] at this
      exact (by simpa using this : c.type ∉ used) hcu

/-- C3 witness: with "-3.5 buts" already used, the over 1.5 candidate of
`exMarkets` is chosen instead of a duplicate. -/
theorem C3_witness :
    ∃ c, (choosePrediction ["-3.5 buts"] "Testland"
        (validCands "Testland" exMarkets)).1 = some c ∧
      c ∈ validCands "Testland" exMarkets ∧ c.type ∉ ["-3.5 buts"] :=
  (C3_thm ["-3.5 buts"] "Testland" (validCands "Testland" exMarkets)).1 (by decide)

/-! ## Claim C4 -/

/-- C4: every candidate returned by any rule function has odds inside the
inclusive range `[1.10, 10.0]`, and so does every prediction stored in the
coupon during `generate_predictions`. -/
theorem C4_thm (mkts : Markets) (c : Cand) (oracle : ℕ → Option Markets)
    (ms : List MatchInfo) (kv : ℕ × Pred) :
    (c ∈ ruleCandidates mkts → min_odds ≤ c.odds ∧ c.odds ≤ max_odds) ∧
    (kv ∈ (genRun oracle ⟨[], []⟩ ms).predictions →
      min_odds ≤ kv.2.odds ∧ kv.2.odds ≤ max_odds) :=
  ⟨fun hc => ruleCandidates_range hc,
   fun hkv => genRun_preds_range oracle ms ⟨[], []⟩ (by simp) kv hkv⟩

/-- C4 witness: the under 3.5 candidate of `exMarkets` and the prediction
stored for `exMatch` are both inside the range. -/
theorem C4_witness :
    (min_odds ≤ ((ruleCandidates exMarkets).head?.getD ⟨"", 0, 0, 0⟩).odds ∧
      ((ruleCandidates exMarkets).head?.getD ⟨"", 0, 0, 0⟩).odds ≤ max_odds) ∧
    (min_odds ≤ (((genRun exOracle ⟨[], []⟩ [exMatch]).predictions.head?.getD
        (0, ⟨"", 0, 0⟩)).2.odds) ∧
      (((genRun exOracle ⟨[], []⟩ [exMatch]).predictions.head?.getD
        (0, ⟨"", 0, 0⟩)).2.odds) ≤ max_odds) :=
  ⟨(C4_thm exMarkets ((ruleCandidates exMarkets).head?.getD ⟨"", 0, 0, 0⟩)
      exOracle [exMatch] ((genRun exOracle ⟨[], []⟩ [exMatch]).predictions.head?.getD
        (0, ⟨"", 0, 0⟩))).1 (by decide),
   (C4_thm exMarkets ((ruleCandidates exMarkets).head?.getD ⟨"", 0, 0, 0⟩)
      exOracle [exMatch] ((genRun exOracle ⟨[], []⟩ [exMatch]).predictions.head?.getD
        (0, ⟨"", 0, 0⟩))).2 (by decide)⟩

/-! ## Claim C5 -/

/-- C5 as stated is false: no handicap market is consulted.  Two snapshots that
differ only in the odds of a handicap market (id "2") produce the same,
non-empty rule output. -/
theorem C5_counterexample :
    generate_match_predictions "Testland" exMarketsH =
        generate_match_predictions "Testland" exMarketsH2 ∧
      generate_match_predictions "Testland" exMarketsH ≠ [] ∧
      List.lookup "2" exMarketsH ≠ List.lookup "2" exMarketsH2 := by
  decide

/-- C5 (amended): the market filter looks up exactly the market ids "1" (1X2),
"8" (double chance), "17" (total goals), "19" (both teams to score) and "99"
(Asian total): two snapshots that agree on those five ids — whatever other
markets, handicap or not, they contain — yield identical rule output. -/
theorem C5_thm (league : String) (m1 m2 : Markets)
    (h1 : List.lookup "1" m1 = List.lookup "1" m2)
    (h8 : List.lookup "8" m1 = List.lookup "8" m2)
    (h17 : List.lookup "17" m1 = List.lookup "17" m2)
    (h19 : List.lookup "19" m1 = List.lookup "19" m2)
    (h99 : List.lookup "99" m1 = List.lookup "99" m2) :
    generate_match_predictions league m1 = generate_match_predictions league m2 := by
  unfold generate_match_predictions ruleCandidates ruleResults get_teams_basic_odds
    find_under_35_goals find_over_15_goals find_over_25_goals find_both_teams_to_score
    find_double_chance_1X find_double_chance_X2
  rw [h1, h8, h17, h19, h99]

/-- C5 witness: the amended statement applied to the two handicap variants. -/
theorem C5_witness :
    generate_match_predictions "Testland" exMarketsH =
      generate_match_predictions "Testland" exMarketsH2 :=
  C5_thm "Testland" exMarketsH exMarketsH2 (by decide) (by decide) (by decide)
    (by decide) (by decide)

/-! ## Claim C2 -/

/-- C2: whenever `generate_predictions` finishes with at least one stored
prediction, the coupon total odds equal the product of the stored predictions'
odds, rounded to two decimal places. -/
theorem C2_thm (oracle : ℕ → Option Markets) (selected : List MatchInfo)
    (st0 : GenState) (total0 : ℚ)
    (h : (generate_predictions oracle selected st0 total0).1.predictions ≠ []) :
    (generate_predictions oracle selected st0 total0).2 =
      round2 (((generate_predictions oracle selected st0 total0).1.predictions.map
        (fun kv => kv.2.odds)).prod) := by
  by_cases he : (genRun oracle st0 selected).predictions.isEmpty
  · exfalso
    apply h
    unfold generate_predictions
    rw [if_pos he]
    exact List.isEmpty_iff.mp he
  · unfold generate_predictions
    rw [if_neg he]
    dsimp only
    rw [List.prod_eq_foldl]
    rfl

/-- C2 witness: on a one-match run the coupon odds are the rounded product. -/
theorem C2_witness :
    (generate_predictions exOracle [exMatch] ⟨[], []⟩ 1.0).2 =
      round2 (((generate_predictions exOracle [exMatch] ⟨[], []⟩ 1.0).1.predictions.map
        (fun kv => kv.2.odds)).prod) :=
  C2_thm exOracle [exMatch] ⟨[], []⟩ 1.0 (by decide)

/-! ## Claim C6 -/

/-- C6: `make_api_request` makes at most 3 attempts, sleeps exactly 2 seconds
between consecutive attempts (one sleep fewer than attempts made), returns the
parsed body of the first attempt that succeeds with status 200 and a parseable
body, and returns `None` when all attempts fail. -/
theorem C6_thm (env : ℕ → ApiOutcome) :
    (make_api_request env).2.1 ≤ 3 ∧
    (∀ d ∈ (make_api_request env).2.2, d = 2) ∧
    (make_api_request env).2.2.length = (make_api_request env).2.1 - 1 ∧
    (make_api_request env).1 = (List.range 3).findSome? (fun k => apiAttemptResult (env k)) := by
  have u0 : make_api_request env = (match apiAttemptResult (env 0) with
      | some v => (some v, 1, [])
      | none => ((apiLoop env 1 2).1, (apiLoop env 1 2).2.1 + 1,
          2 :: (apiLoop env 1 2).2.2)) := rfl
  have u1 : apiLoop env 1 2 = (match apiAttemptResult (env 1) with
      | some v => (some v, 1, [])
      | none => ((apiLoop env 2 1).1, (apiLoop env 2 1).2.1 + 1,
          2 :: (apiLoop env 2 1).2.2)) := rfl
  have u2 : apiLoop env 2 1 = (match apiAttemptResult (env 2) with
      | some v => (some v, 1, [])
      | none => ((apiLoop env 3 0).1, (apiLoop env 3 0).2.1 + 1,
          (apiLoop env 3 0).2.2)) := rfl
  have u3 : apiLoop env 3 0 = (none, 0, []) := rfl
  have hr : List.range 3 = [0, 1, 2] := rfl
  rcases e0 : apiAttemptResult (env 0) with _ | v0 <;>
    rcases e1 : apiAttemptResult (env 1) with _ | v1 <;>
      rcases e2 : apiAttemptResult (env 2) with _ | v2 <;>
        simp [u0, u1, u2, u3, e0, e1, e2, hr, List.findSome?_cons]

/-- C6 witness: an environment that raises once and then succeeds makes two
attempts, sleeps once, and returns the parsed body. -/
theorem C6_witness :
    ((make_api_request exApiEnv).2.1 ≤ 3 ∧
      (∀ d ∈ (make_api_request exApiEnv).2.2, d = 2) ∧
      (make_api_request exApiEnv).2.2.length = (make_api_request exApiEnv).2.1 - 1 ∧
      (make_api_request exApiEnv).1 =
        (List.range 3).findSome? (fun k => apiAttemptResult (exApiEnv k))) ∧
    make_api_request exApiEnv = (some 42, 2, [2]) :=
  ⟨C6_thm exApiEnv, by decide⟩

/-! ## Claim C7 -/

/-- C7: a selected match whose odds fetch fails, or for which no rule yields a
valid candidate, contributes nothing: no prediction is stored for it, and the
run over the remaining matches is identical to the run in which the failed
match was never selected. -/
theorem C7_thm (oracle : ℕ → Option Markets) (st : GenState)
    (pre post : List MatchInfo) (m : MatchInfo)
    (h : oracle m.id = none ∨ matchValidCands oracle m = []) :
    genRun oracle st (pre ++ m :: post) = genRun oracle st (pre ++ post) ∧
      processMatch oracle (genRun oracle st pre) m = genRun oracle st pre := by
  have hk : ∀ s : GenState, processMatch oracle s m = s := processMatch_skip h
  constructor
  · unfold genRun
    rw [List.foldl_append, List.foldl_append, List.foldl_cons, hk]
  · exact hk _

/-- C7 witness: with a failing oracle, selecting `exMatch` changes nothing. -/
theorem C7_witness :
    genRun noneOracle ⟨[], []⟩ ([] ++ exMatch :: []) = genRun noneOracle ⟨[], []⟩ ([] ++ []) ∧
      processMatch noneOracle (genRun noneOracle ⟨[], []⟩ []) exMatch =
        genRun noneOracle ⟨[], []⟩ [] :=
  C7_thm noneOracle ⟨[], []⟩ [] [] exMatch (Or.inl rfl)

/-! ## Claim C8 -/

/-- C8: after the per-match loop of `generate_predictions` runs from the reset
state, the predictions mapping has pairwise-distinct keys (at most one
prediction per match id) and every key is the id of a selected match. -/
theorem C8_thm (oracle : ℕ → Option Markets) (selected : List MatchInfo) :
    ((genRun oracle ⟨[], []⟩ selected).predictions.map Prod.fst).Nodup ∧
      ∀ a ∈ (genRun oracle ⟨[], []⟩ selected).predictions.map Prod.fst,
        a ∈ selected.map MatchInfo.id := by
  rcases genRun_keys oracle selected ⟨[], []⟩ (by simp) with ⟨h1, h2⟩
  refine ⟨h1, fun a ha => ?_⟩
  rcases h2 a ha with hin | hin
  · simp at hin
  · exact hin

/-- C8 witness: the one-match run stores exactly the key 7, which is the id of
the selected match. -/
theorem C8_witness :
    ((genRun exOracle ⟨[], []⟩ [exMatch]).predictions.map Prod.fst).Nodup ∧
      (7 ∈ (genRun exOracle ⟨[], []⟩ [exMatch]).predictions.map Prod.fst →
        7 ∈ [exMatch].map MatchInfo.id) :=
  ⟨(C8_thm exOracle [exMatch]).1, fun h => (C8_thm exOracle [exMatch]).2 7 h⟩

/-! ## Claim C9 -/

/-- C9: `run_prediction_job` resets the mutable prediction state (selection,
predictions, coupon odds) before fetching or processing anything, so its
result is independent of the state left by any previous run. -/
theorem C9_thm (env : Env) (s1 s2 : BotState) :
    run_prediction_job env s1 = run_prediction_job env s2 := by
  cases s1
  cases s2
  rfl

/-! ## Claim C10 -/

/-- C10: for any sampler satisfying the `random.sample` contract (a draw of `k`
distinct positions), whatever selection `select_matches` stores is drawn
without replacement from the input (a sub-permutation), has at most
`min(5, n)` elements, and is duplicate-free whenever the input is. -/
theorem C10_thm (sampler : List MatchInfo → ℕ → List MatchInfo)
    (hs : ∀ l k, k ≤ l.length →
      List.Subperm (sampler l k) l ∧ (sampler l k).length = k)
    (allM sel : List MatchInfo) (h : select_matches sampler allM = some sel) :
    List.Subperm sel allM ∧ sel.length ≤ min 5 allM.length ∧
      (allM.Nodup → sel.Nodup) := by
  unfold select_matches at h
  split at h
  · rename_i he
    have hn : allM = [] := List.isEmpty_iff.mp he
    subst hn
    cases h
    exact ⟨List.nil_subperm, by simp, fun _ => List.nodup_nil⟩
  · rename_i he
    have hnil : allM ≠ [] := fun hn => he (by simp [hn])
    have hlen1 : 0 < allM.length := List.length_pos.mpr hnil
    rcases hA : sampleIfNonempty sampler (lowCat allM)
        (min (quotasOf allM).1 ((lowCat allM).length : ℤ)) with _ | a
    · rw [hA] at h; simp at h
    rcases hB : sampleIfNonempty sampler (medCat allM)
        (min (quotasOf allM).2.1 ((medCat allM).length : ℤ)) with _ | b
    · rw [hA, hB] at h; simp at h
    rcases hC : sampleIfNonempty sampler (highCat allM)
        (min (quotasOf allM).2.2 ((highCat allM).length : ℤ)) with _ | c
    · rw [hA, hB, hC] at h; simp at h
    rw [hA, hB, hC] at h
    dsimp only at h
    injection h with h
    subst h
    have SA := sampleIfNonempty_spec hs hA
    have SB := sampleIfNonempty_spec hs hB
    have SC := sampleIfNonempty_spec hs hC
    have P1 : List.Perm (lowCat allM ++ restCat allM) allM := by
      unfold lowCat restCat
      exact List.filter_append_perm _ allM
    have P2 : List.Perm (highCat allM ++ medCat allM) (restCat allM) := by
      unfold highCat medCat
      exact List.filter_append_perm _ (restCat allM)
    have hsub : List.Subperm (a ++ b ++ c) allM := by
      rw [List.subperm_ext_iff]
      intro x hx
      have c1 := SA.1.count_le x
      have c2 := SB.1.count_le x
      have c3 := SC.1.count_le x
      have e1 := P1.count_eq x
      have e2 := P2.count_eq x
      simp only [List.count_append] at e1 e2 ⊢
      omega
    have hlensum : (lowCat allM).length +
        ((highCat allM).length + (medCat allM).length) = allM.length := by
      have l1 := P1.length_eq
      have l2 := P2.length_eq
      simp only [List.length_append] at l1 l2
      omega
    have hm1 : 1 ≤ maxMatchesOf allM := by unfold maxMatchesOf; omega
    have hm5 : maxMatchesOf allM ≤ 5 := by unfold maxMatchesOf; omega
    have hq := initial_quotas_facts (maxMatchesOf allM) hm1 hm5
    have hL1 : 1 ≤ lowQuota0 allM := hq.1
    have hM1 : 1 ≤ medQuota0 allM := hq.2.1
    have hneg : (maxMatchesOf allM : ℤ) - lowQuota0 allM - medQuota0 allM < 0 →
        maxMatchesOf allM = 1 := hq.2.2
    have hqdef : quotasOf allM = adjust_quotas (lowCat allM).length (medCat allM).length
        (highCat allM).length (lowQuota0 allM) (medQuota0 allM)
        ((maxMatchesOf allM : ℤ) - lowQuota0 allM - medQuota0 allM) := rfl
    have hsum := adjust_quotas_sum_le (lowCat allM).length (medCat allM).length
      (highCat allM).length (lowQuota0 allM) (medQuota0 allM)
      ((maxMatchesOf allM : ℤ) - lowQuota0 allM - medQuota0 allM)
    rw [← hqdef] at hsum
    have hnn := adjust_quotas_low_med_nonneg (lowCat allM).length (medCat allM).length
      (highCat allM).length (lowQuota0 allM) (medQuota0 allM)
      ((maxMatchesOf allM : ℤ) - lowQuota0 allM - medQuota0 allM) hL1 hM1
    rw [← hqdef] at hnn
    have hmm : maxMatchesOf allM = min 5 allM.length := rfl
    refine ⟨hsub, ?_, ?_⟩
    · have la := SA.2.1
      have lb := SB.2.1
      have lc := SC.2.1
      have la2 := SA.2.2
      have lb2 := SB.2.2
      have lc2 := SC.2.2
      simp only [List.length_append]
      by_cases hH : 0 ≤ (quotasOf allM).2.2
      · omega
      · have hH2 : (adjust_quotas (lowCat allM).length (medCat allM).length
            (highCat allM).length (lowQuota0 allM) (medQuota0 allM)
            ((maxMatchesOf allM : ℤ) - lowQuota0 allM - medQuota0 allM)).2.2 < 0 := by
          rw [← hqdef]; omega
        have hmax1 : maxMatchesOf allM = 1 :=
          hneg (adjust_quotas_high_neg _ _ _ _ _ _ hH2)
        omega
    · intro hnd
      obtain ⟨l, hp, hsl⟩ := hsub
      exact hp.nodup_iff.mp (hsl.nodup hnd)

/-- C10 witness: the take-based sampler satisfies the contract and the
selection on a one-match input has all three properties. -/
theorem C10_witness :
    List.Subperm [exMatch] [exMatch] ∧ ([exMatch] : List MatchInfo).length ≤
      min 5 ([exMatch] : List MatchInfo).length ∧ ([exMatch] : List MatchInfo).Nodup :=
  have H := C10_thm takeSampler takeSampler_spec [exMatch] [exMatch] (by decide)
  ⟨H.1, H.2.1, H.2.2 (by decide)⟩

end BotAI
